import Mathlib

/-!
Verification development for the BrontoBoard day-planner core
(`dayplanner.ts`, exercised by `dayplanner-tests.ts`).

The TypeScript source is shallowly embedded as follows.

* JavaScript `Date` instants are epoch milliseconds (`Int`), with the
  local time zone taken to be UTC.  `new Date(y, m0, d, 0, 0, 0, 0)` is
  `jsMakeDate`, which implements the ECMAScript `MakeDay`/`MakeDate`
  normalisation: the two-digit-year adjustment (`0 ≤ y ≤ 99` means
  `1900 + y`) and the month/day rollover (month −1 is December of the
  previous year, April 31 is May 1).  A `Date` is invalid (its time
  value `NaN`) exactly when the time value exceeds 8.64e15 in magnitude
  (`jsTimeValid`).  `new Date()` — "now" — is represented structurally
  by `Instant` so that `getFullYear()` is a field read.
* The board is `BrontoBoard`: an association list of classes
  (`Record<string, Class>` keyed by generated ids, here consecutive
  `Nat`s standing for `crypto.randomUUID()`), a heap of `Assignment`
  objects addressed by their ids (JavaScript object references: the
  class collections store references, and `changeAssignment` mutates
  through a reference without consulting the classes), the board-wide
  `syllabus` string, and the next fresh id.
* Exceptions are `Except String`; a mutating operation returns the
  board it leaves behind *together with* the outcome, so that partial
  mutation before a throw is representable.  All clock reads within one
  synchronous run are modelled by a single `now` (the real code calls
  `new Date()` repeatedly during one run; no claim depends on the
  clock advancing mid-run).
* `parseAndApplyAssignments` is embedded from the parsed JSON value on:
  the regex `{[\s\S]*}` extraction and `JSON.parse` (JS builtins) are
  upstream of the model, which starts at the `response.assignments`
  shape check.  String-to-number coercion (`Number(x)`) is modelled for
  the forms the pipeline meets: decimal integers and fractions with an
  optional sign; the exotic ECMAScript forms (hex, exponents,
  `Infinity`, `ToPrimitive` on arrays/objects) are modelled as `NaN`.
-/

deriving instance DecidableEq for Except

/-- A parsed JSON value (the result of `JSON.parse`).  Numbers carry a
rational so that non-integral numerics such as `9.5` are representable;
object field lists are key-unique, as `JSON.parse` produces. -/
inductive JsonVal where
  | null
  | bool (b : Bool)
  | num (q : ℚ)
  | str (s : String)
  | arr (elems : List JsonVal)
  | obj (fields : List (String × JsonVal))

/-- Property read `v[k]` for the destructuring patterns in the source:
present only on objects (arrays have no `name`/`monthDue`/`dayDue`
properties), `none` standing for `undefined`. -/
def getField : JsonVal → String → Option JsonVal
  | JsonVal.obj fields, k => fields.lookup k
  | _, _ => none

/-- Evaluates `typeof v === 'object' && v !== null`: true for objects and arrays,
false for `null`, booleans, numbers and strings. -/
def isObjectNonNull : JsonVal → Bool
  | JsonVal.arr _ => true
  | JsonVal.obj _ => true
  | _ => false

/-- JavaScript `String.prototype.trim()`, at the character-list level
(kernel-reducible, unlike `String.trim`). -/
def jsTrim (s : String) : String :=
  String.mk (((s.data.dropWhile Char.isWhitespace).reverse.dropWhile Char.isWhitespace).reverse)

/-- Decimal digit run to a natural number. -/
def digitsToNat (cs : List Char) : Nat :=
  cs.foldl (fun n c => n * 10 + (c.toNat - 48)) 0

/-- ECMAScript `StringToNumber`, restricted to the decimal forms
(optional sign, integer part, optional fraction); whitespace-only is 0;
hex, exponent and `Infinity` forms are conservatively `NaN` (`none`). -/
def jsStringToNumber (s : String) : Option ℚ :=
  let cs := (jsTrim s).toList
  if cs.isEmpty then some 0 else
  let sgn : ℚ := match cs with
    | '-' :: _ => -1
    | _ => 1
  let cs₁ : List Char := match cs with
    | '-' :: r => r
    | '+' :: r => r
    | r => r
  let ip := cs₁.takeWhile Char.isDigit
  let rest := cs₁.dropWhile Char.isDigit
  match rest with
  | [] => if ip.isEmpty then none else some (sgn * (digitsToNat ip : ℚ))
  | '.' :: fp =>
      if fp.all Char.isDigit && !(ip.isEmpty && fp.isEmpty) then
        some (sgn * ((digitsToNat ip : ℚ) + (digitsToNat fp : ℚ) / (10 : ℚ) ^ fp.length))
      else none
  | _ => none

/-- Coercion `Number(v)` on an optional property (`none` = `undefined` → `NaN`):
`null` → 0, booleans → 0/1, numbers pass through, strings via
`jsStringToNumber`; array/object `ToPrimitive` coercion is modelled as
`NaN`. -/
def jsToNum : Option JsonVal → Option ℚ
  | none => none
  | some JsonVal.null => some 0
  | some (JsonVal.bool b) => some (if b then 1 else 0)
  | some (JsonVal.num q) => some q
  | some (JsonVal.str s) => jsStringToNumber s
  | some (JsonVal.arr _) => none
  | some (JsonVal.obj _) => none

/-- Check `Number.isInteger(Number(v))`, returning the integer when it holds. -/
def numAsInteger (v : Option JsonVal) : Option Int :=
  match jsToNum v with
  | some q => if q.den = 1 then some q.num else none
  | none => none

/-- Days since 1970-01-01 of the civil date `(y, m, d)` in the
proleptic Gregorian calendar, valid for `1 ≤ m ≤ 12` and linear in `d`
(so day counts past the end of a month roll into the next). -/
def daysFromCivil (y m d : Int) : Int :=
  let y₁ := if m ≤ 2 then y - 1 else y
  let era := Int.fdiv y₁ 400
  let yoe := y₁ - era * 400
  let mp := Int.fmod (m + 9) 12
  let doy := Int.fdiv (153 * mp + 2) 5 + d - 1
  let doe := yoe * 365 + Int.fdiv yoe 4 - Int.fdiv yoe 100 + doy
  era * 146097 + doe - 719468

/-- Milliseconds per day. -/
def msPerDay : Int := 86400000

/-- Time value of `new Date(y, m0, d, 0, 0, 0, 0)` (zero-based month
`m0`): ECMAScript applies the two-digit-year adjustment and normalises
month and day by rollover rather than rejecting them. -/
def jsMakeDate (y m0 d : Int) : Int :=
  let yr := if 0 ≤ y ∧ y ≤ 99 then y + 1900 else y
  let ym := yr + Int.fdiv m0 12
  let mn := Int.fmod m0 12
  (daysFromCivil ym (mn + 1) 1 + (d - 1)) * msPerDay

/-- ECMAScript `TimeClip`: a time value is a real instant (not `NaN`)
iff its magnitude is at most 8.64e15 ms. -/
def jsTimeValid (t : Int) : Bool :=
  decide (-8640000000000000 ≤ t) && decide (t ≤ 8640000000000000)

/-- The current instant (`new Date()`), split into calendar fields so
that `getFullYear()` is the `year` field and the full instant is
`toMs`. -/
structure Instant where
  year : Int
  month : Int
  day : Int
  msOfDay : Int
deriving DecidableEq

/-- The epoch-millisecond time value of the instant. -/
def Instant.toMs (t : Instant) : Int :=
  daysFromCivil t.year t.month t.day * msPerDay + t.msOfDay

/-- An `Assignment` record: generated id, name, due date (epoch ms). -/
structure Assignment where
  id : Nat
  name : String
  dueDate : Int
deriving DecidableEq

/-- A `Class` record; `assignments` holds references into the board's
assignment heap (the JS array stores object references). -/
structure ClassObj where
  id : Nat
  name : String
  overview : String
  assignments : List Nat
deriving DecidableEq

/-- The `BrontoBoard` state: `classes` is the `Record<string, Class>`,
`heap` the store of live `Assignment` objects by reference, `syllabus`
the board-wide syllabus text, `nextId` the source of fresh ids
(standing for `crypto.randomUUID()`). -/
structure BrontoBoard where
  classes : List (Nat × ClassObj)
  heap : List (Nat × Assignment)
  syllabus : String
  nextId : Nat
deriving DecidableEq

/-- First-match association lookup (JS property read on a record whose
keys are unique). -/
def lookupA {α : Type} (k : Nat) : List (Nat × α) → Option α
  | [] => none
  | p :: rest => if p.1 = k then some p.2 else lookupA k rest

/-- Record read `this.classes[classid]`. -/
def lookupClass (b : BrontoBoard) (classid : Nat) : Option ClassObj :=
  lookupA classid b.classes

/-- Dereference an assignment reference in the heap. -/
def lookupHeap (h : List (Nat × Assignment)) (r : Nat) : Option Assignment :=
  lookupA r h

/-- Replace the class stored under `classid` by `f` of it. -/
def updateClass (cls : List (Nat × ClassObj)) (classid : Nat) (f : ClassObj → ClassObj) :
    List (Nat × ClassObj) :=
  cls.map (fun p => if p.1 = classid then (p.1, f p.2) else p)

/-- The `Assignment[]` array of a class, dereferenced (empty when the
class is unknown). -/
def derefAssignments (b : BrontoBoard) (classid : Nat) : List Assignment :=
  match lookupClass b classid with
  | none => []
  | some c => c.assignments.filterMap (lookupHeap b.heap)

/-- The names currently present in a class's assignment array. -/
def classNames (b : BrontoBoard) (classid : Nat) : List String :=
  (derefAssignments b classid).map (fun a => a.name)

/-- Reference and heap-key freshness: every stored id is below
`nextId`.  Holds for every board built by the operations from an empty
board. -/
def BrontoBoard.wfb (b : BrontoBoard) : Bool :=
  b.heap.all (fun p => p.1 < b.nextId) &&
  b.classes.all (fun p => p.2.assignments.all (fun r => r < b.nextId))

/-- Operation `createClass(name, overview)`: no validation of any kind — it
allocates a fresh id, registers the class and returns it. -/
def createClass (b : BrontoBoard) (name overview : String) : BrontoBoard × ClassObj :=
  let c : ClassObj := ⟨b.nextId, name, overview, []⟩
  ({ b with classes := b.classes ++ [(b.nextId, c)], nextId := b.nextId + 1 }, c)

/-- Operation `addSyllabus(syllabus)`: throws when the text is empty or
all-whitespace, otherwise stores the trimmed text. -/
def addSyllabus (b : BrontoBoard) (syl : String) : BrontoBoard × Except String Unit :=
  if jsTrim syl = "" then (b, Except.error "Syllabus cannot be empty.")
  else ({ b with syllabus := jsTrim syl }, Except.ok ())

/-- Operation `addAssignment(classid, workName, dueDate)`: `ensureClassExists`,
then the empty-name check, then the strict past-date check
(`dueDate < new Date()`), then push a fresh `Assignment`.  Note there
is no duplicate-name check. -/
def addAssignment (now : Int) (b : BrontoBoard) (classid : Nat) (workName : String)
    (dueDate : Int) : BrontoBoard × Except String Assignment :=
  match lookupClass b classid with
  | none => (b, Except.error "Class does not belong to this BrontoBoard.")
  | some _ =>
    if jsTrim workName = "" then (b, Except.error "workName cannot be empty.")
    else if dueDate < now then (b, Except.error "dueDate must be in the future.")
    else
      let w : Assignment := ⟨b.nextId, workName, dueDate⟩
      ({ b with
          heap := b.heap ++ [(b.nextId, w)],
          classes := updateClass b.classes classid
            (fun c => { c with assignments := c.assignments ++ [b.nextId] }),
          nextId := b.nextId + 1 },
        Except.ok w)

/-- Overwrite the due date of the heap object referenced by `r`. -/
def setDueDate (h : List (Nat × Assignment)) (r : Nat) (d : Int) :
    List (Nat × Assignment) :=
  h.map (fun p => if p.1 = r then (p.1, { p.2 with dueDate := d }) else p)

/-- Operation `changeAssignment(work, newDueDate)`: null check, strict past-date
check, then mutation through the object reference — the board's class
collections are never consulted. -/
def changeAssignment (now : Int) (b : BrontoBoard) (work : Option Nat) (newDueDate : Int) :
    BrontoBoard × Except String Unit :=
  match work with
  | none => (b, Except.error "Invalid assignment.")
  | some r =>
    if newDueDate < now then (b, Except.error "New due date must be in the future.")
    else ({ b with heap := setDueDate b.heap r newDueDate }, Except.ok ())

/-- Remove the first occurrence of reference `r` from the first class
containing it, scanning classes in insertion order. -/
def removeFromClasses (r : Nat) : List (Nat × ClassObj) → Option (List (Nat × ClassObj))
  | [] => none
  | p :: rest =>
    if r ∈ p.2.assignments then
      some ((p.1, { p.2 with assignments := p.2.assignments.erase r }) :: rest)
    else
      match removeFromClasses r rest with
      | some rest' => some (p :: rest')
      | none => none

/-- Operation `removeWork(work)`: splice the assignment out of whichever class
holds it; throw otherwise.  The heap object itself survives (the caller
still holds the reference). -/
def removeWork (b : BrontoBoard) (work : Assignment) : BrontoBoard × Except String Unit :=
  match removeFromClasses work.id b.classes with
  | some classes' => ({ b with classes := classes' }, Except.ok ())
  | none => (b, Except.error "Assignment not found.")

/-- Operation `getAllAssignments(classid)`: reads
`this.classes[classid].assignments` with no existence check, so an
unknown id throws a `TypeError` (reading a property of `undefined`)
rather than the `ensureClassExists` error. -/
def getAllAssignments (b : BrontoBoard) (classid : Nat) : Except String (List Assignment) :=
  match lookupClass b classid with
  | none => Except.error "TypeError: cannot read properties of undefined"
  | some c => Except.ok (c.assignments.filterMap (lookupHeap b.heap))

/-- One iteration of the validation loop of `parseAndApplyAssignments`:
object check, name check, `Number.isInteger` checks,
`new Date(now.getFullYear(), month - 1, day, 0, 0, 0, 0)`, the `isNaN`
check, and the strict `specificDate < now` past-date check.  Errors are
the recorded issues. -/
def checkCandidate (now : Instant) (raw : JsonVal) : Except String (String × Int) :=
  if !isObjectNonNull raw then
    Except.error "Encountered an assignment entry that is not an object."
  else
    match getField raw "name" with
    | some (JsonVal.str name) =>
      if jsTrim name = "" then Except.error "Assignment is missing a valid name."
      else
        match numAsInteger (getField raw "monthDue"), numAsInteger (getField raw "dayDue") with
        | some month, some day =>
          let specificDate := jsMakeDate now.year (month - 1) day
          if !jsTimeValid specificDate then
            Except.error ("Assignment \"" ++ name ++ "\" produced an invalid date.")
          else if specificDate < now.toMs then
            Except.error ("Assignment \"" ++ name ++ "\" has a past due date.")
          else Except.ok (name, specificDate)
        | _, _ => Except.error ("Assignment \"" ++ name ++ "\" has invalid numeric fields.")
    | _ => Except.error "Assignment is missing a valid name."

/-- The `for (const rawAssignment of response.assignments)` scan: every
element is checked, a failing element contributes its issue and the
scan continues (`continue`), a passing element contributes its
validated record; order is preserved. -/
def validateAssignments (now : Instant) : List JsonVal → List String × List (String × Int)
  | [] => ([], [])
  | v :: rest =>
    let r := validateAssignments now rest
    match checkCandidate now v with
    | Except.error issue => (issue :: r.1, r.2)
    | Except.ok a => (r.1, a :: r.2)

/-- The commit loop over the validated candidates: per item, the
duplicate-name check against the class's *current* array (which already
contains the items committed earlier in this run), then
`addAssignment`.  A throw stops the loop but keeps the board mutated so
far. -/
def commitLoop (now : Instant) (b : BrontoBoard) (classid : Nat) :
    List (String × Int) → BrontoBoard × Except String Unit
  | [] => (b, Except.ok ())
  | (nm, due) :: rest =>
    match lookupClass b classid with
    | none => (b, Except.error "TypeError: cannot read properties of undefined")
    | some _ =>
      if nm ∈ classNames b classid then
        (b, Except.error ("Skipping duplicate assignment: " ++ nm))
      else
        match addAssignment now.toMs b classid nm due with
        | (b', Except.ok _) => commitLoop now b' classid rest
        | (b', Except.error e) => (b', Except.error e)

/-- Operation `parseAndApplyAssignments(responseText, classid)` from the parsed
response value on: the `response.assignments` shape check, the
issue-accumulating validation scan, the all-or-nothing gate
(`issues.length > 0` throws with the full list before anything is
committed), then the per-item commit loop. -/
def parseAndApplyAssignments (now : Instant) (response : JsonVal) (classid : Nat)
    (b : BrontoBoard) : BrontoBoard × Except String Unit :=
  match getField response "assignments" with
  | some (JsonVal.arr l) =>
    if (validateAssignments now l).1.length > 0 then
      (b, Except.error ("LLM provided disallowed assignments:\n- " ++
        String.intercalate "\n- " (validateAssignments now l).1))
    else commitLoop now b classid (validateAssignments now l).2
  | _ => (b, Except.error "Invalid response format")

/-- A candidate object of the shape the prompt requests. -/
def mkCandidate (name : String) (month day : Int) : JsonVal :=
  JsonVal.obj [("name", JsonVal.str name), ("monthDue", JsonVal.num (month : ℚ)),
    ("dayDue", JsonVal.num (day : ℚ))]

/-- Whether an outcome is a success. -/
def exOk {α : Type} : Except String α → Bool
  | Except.ok _ => true
  | Except.error _ => false

/-- The issue recorded for a candidate, if any. -/
def issueOf (now : Instant) (v : JsonVal) : Option String :=
  match checkCandidate now v with
  | Except.error s => some s
  | Except.ok _ => none

/-! ### Shared lemmas -/

/-- The issue list produced by the validation scan is exactly one issue
per failing candidate, in order, over the whole array. -/
theorem validateAssignments_fst (now : Instant) (l : List JsonVal) :
    (validateAssignments now l).1 = l.filterMap (issueOf now) := by
  induction l with
  | nil => rfl
  | cons v rest ih =>
    simp only [validateAssignments, List.filterMap_cons, issueOf]
    cases h : checkCandidate now v <;> simp [h, ih]

/-- The validated list produced by the scan is exactly the passing
candidates, in order. -/
theorem validateAssignments_snd (now : Instant) (l : List JsonVal) :
    (validateAssignments now l).2 = l.filterMap (fun v =>
      match checkCandidate now v with
      | Except.ok a => some a
      | Except.error _ => none) := by
  induction l with
  | nil => rfl
  | cons v rest ih =>
    simp only [validateAssignments, List.filterMap_cons]
    cases h : checkCandidate now v <;> simp [h, ih]

/-- Overwriting the due date through a reference changes exactly that
heap cell's due date. -/
theorem lookupHeap_setDueDate (h : List (Nat × Assignment)) (r : Nat) (d : Int) :
    lookupHeap (setDueDate h r d) r =
      (lookupHeap h r).map (fun a => ⟨a.id, a.name, d⟩) := by
  induction h with
  | nil => rfl
  | cons p rest ih =>
    by_cases hpr : p.1 = r
    · simp [setDueDate, lookupHeap, lookupA, hpr]
    · simpa [setDueDate, lookupHeap, lookupA, hpr] using ih

/-- A sample board: one registered class (id 0), no assignments. -/
def boardW : BrontoBoard := ⟨[(0, ⟨0, "Physics 101", "Hello", []⟩)], [], "", 1⟩

/-- A board whose heap holds an assignment (reference 7) that belongs
to no class's collection. -/
def boardLoose : BrontoBoard := ⟨[(0, ⟨0, "Physics 101", "Hello", []⟩)], [(7, ⟨7, "X", 100⟩)], "", 8⟩

/-! ### Claims -/

/-- C1: parseAndApplyAssignments is all-or-nothing: when any element of
the parsed assignments array fails a per-candidate check, the scan
still visits every element accumulating one issue per bad candidate,
the whole batch is rejected with an error carrying the full issue list,
and the board — in particular the class's assignment collection — is
left exactly as it was. -/
theorem c1_all_or_nothing (now : Instant) (response : JsonVal) (classid : Nat)
    (b : BrontoBoard) (l : List JsonVal)
    (hresp : getField response "assignments" = some (JsonVal.arr l))
    (hbad : ∃ v ∈ l, exOk (checkCandidate now v) = false) :
    parseAndApplyAssignments now response classid b =
      (b, Except.error ("LLM provided disallowed assignments:\n- " ++
        String.intercalate "\n- " (l.filterMap (issueOf now)))) ∧
    (validateAssignments now l).1 = l.filterMap (issueOf now) := by
  have hfst := validateAssignments_fst now l
  obtain ⟨v, hv, hbadv⟩ := hbad
  obtain ⟨s, hs⟩ : ∃ s, checkCandidate now v = Except.error s := by
    cases h : checkCandidate now v with
    | error s => exact ⟨s, rfl⟩
    | ok a => rw [h] at hbadv; simp [exOk] at hbadv
  have hmem : s ∈ l.filterMap (issueOf now) :=
    List.mem_filterMap.mpr ⟨v, hv, by simp [issueOf, hs]⟩
  have hlen : 0 < (validateAssignments now l).1.length := by
    rw [hfst]; exact List.length_pos.mpr (List.ne_nil_of_mem hmem)
  refine ⟨?_, hfst⟩
  simp only [parseAndApplyAssignments, hresp]
  rw [if_pos hlen, hfst]

/-- C1 witness: a two-element array whose second element has
`dayDue: "abc"`; the batch is rejected with the one issue and the board
is unchanged. -/
theorem c1_all_or_nothing_witness :
    parseAndApplyAssignments ⟨2025, 1, 15, 0⟩
      (JsonVal.obj [("assignments", JsonVal.arr [mkCandidate "Pset#0" 9 4,
        JsonVal.obj [("name", JsonVal.str "Pset#1"), ("monthDue", JsonVal.num (10 : ℚ)),
          ("dayDue", JsonVal.str "abc")]])]) 0 boardW =
      (boardW, Except.error ("LLM provided disallowed assignments:\n- " ++
        String.intercalate "\n- " ([mkCandidate "Pset#0" 9 4,
          JsonVal.obj [("name", JsonVal.str "Pset#1"), ("monthDue", JsonVal.num (10 : ℚ)),
            ("dayDue", JsonVal.str "abc")]].filterMap (issueOf ⟨2025, 1, 15, 0⟩)))) ∧
    (validateAssignments ⟨2025, 1, 15, 0⟩ [mkCandidate "Pset#0" 9 4,
      JsonVal.obj [("name", JsonVal.str "Pset#1"), ("monthDue", JsonVal.num (10 : ℚ)),
        ("dayDue", JsonVal.str "abc")]]).1 =
      [mkCandidate "Pset#0" 9 4,
        JsonVal.obj [("name", JsonVal.str "Pset#1"), ("monthDue", JsonVal.num (10 : ℚ)),
          ("dayDue", JsonVal.str "abc")]].filterMap (issueOf ⟨2025, 1, 15, 0⟩) :=
  c1_all_or_nothing ⟨2025, 1, 15, 0⟩ _ 0 boardW _ rfl
    ⟨JsonVal.obj [("name", JsonVal.str "Pset#1"), ("monthDue", JsonVal.num (10 : ℚ)),
      ("dayDue", JsonVal.str "abc")], List.Mem.tail _ (List.Mem.head _), by decide⟩

/-- C2: the claim fails on the code, which is a bug against the repo's
own write-up (the README states the validator checks that "the due date
returned corresponds to a valid date").  ECMAScript Date normalisation
rolls April 31 over into May 1, so `new Date(year, 3, 31)` is a valid
date, the `isNaN` guard never fires, no "invalid date" issue is
recorded, and the candidate is accepted and committed. -/
theorem c2_april31_no_invalid_date_issue :
    checkCandidate ⟨2025, 1, 15, 0⟩ (mkCandidate "A" 4 31) =
      Except.ok ("A", Instant.toMs ⟨2025, 5, 1, 0⟩) ∧
    parseAndApplyAssignments ⟨2025, 1, 15, 0⟩
      (JsonVal.obj [("assignments", JsonVal.arr [mkCandidate "A" 4 31])]) 0 boardW =
      (⟨[(0, ⟨0, "Physics 101", "Hello", [1]⟩)],
        [(1, ⟨1, "A", Instant.toMs ⟨2025, 5, 1, 0⟩⟩)], "", 2⟩, Except.ok ()) :=
  ⟨by decide, by decide⟩

/-- C6: the claim fails on the code, which is a bug against the repo's
own concept specification (`createClass` "requires … the Classname not
be an empty String", and the sibling operations do enforce their
requirements by throwing): `createClass` performs no validation at all,
so an empty (or all-whitespace) name allocates an id and registers a
class regardless. -/
theorem c6_createClass_accepts_empty_name :
    createClass ⟨[], [], "", 0⟩ "" "Hello" =
      (⟨[(0, ⟨0, "", "Hello", []⟩)], [], "", 1⟩, ⟨0, "", "Hello", []⟩) ∧
    lookupClass (createClass ⟨[], [], "", 0⟩ "" "Hello").1 0 = some ⟨0, "", "Hello", []⟩ ∧
    jsTrim (createClass ⟨[], [], "", 0⟩ "" "Hello").2.name = "" :=
  ⟨rfl, rfl, rfl⟩

/-- C7 (amended): getAllAssignments throws for every unregistered
classId — though with a TypeError from reading `.assignments` of
`undefined`, not the store's explicit not-found check — and returns the
class's (dereferenced) assignment collection for every registered
classId. -/
theorem c7_amended_getAllAssignments (b : BrontoBoard) (classid : Nat) :
    (lookupClass b classid = none →
      getAllAssignments b classid =
        Except.error "TypeError: cannot read properties of undefined") ∧
    ∀ c, lookupClass b classid = some c →
      getAllAssignments b classid = Except.ok (c.assignments.filterMap (lookupHeap b.heap)) := by
  constructor
  · intro h; simp [getAllAssignments, h]
  · intro c h; simp [getAllAssignments, h]

/-- C7 witness: an empty board errors on class 5; the one-class board
returns its (empty) collection. -/
theorem c7_amended_getAllAssignments_witness :
    getAllAssignments ⟨[], [], "", 0⟩ 5 =
      Except.error "TypeError: cannot read properties of undefined" ∧
    getAllAssignments boardW 0 = Except.ok [] :=
  ⟨(c7_amended_getAllAssignments ⟨[], [], "", 0⟩ 5).1 rfl,
    (c7_amended_getAllAssignments boardW 0).2 ⟨0, "Physics 101", "Hello", []⟩ rfl⟩

/-- C7 counterexample: on an unknown classId the failure is not the
not-found error the store uses elsewhere (`ensureClassExists`'s
"Class does not belong to this BrontoBoard."), but a TypeError from the
unchecked property access. -/
theorem c7_not_notfound_error :
    getAllAssignments ⟨[], [], "", 0⟩ 0 =
      Except.error "TypeError: cannot read properties of undefined" ∧
    getAllAssignments ⟨[], [], "", 0⟩ 0 ≠
      Except.error "Class does not belong to this BrontoBoard." :=
  ⟨by decide, by decide⟩

/-- C9: changeAssignment never consults the store: for every board and
every reference, with a new due date not before the current instant it
succeeds, rewrites that heap object's due date and leaves the classes
untouched — with no hypothesis that any class contains the assignment —
and it errors exactly on a null assignment or a past date. -/
theorem c9_changeAssignment_no_membership_check (b : BrontoBoard) (now : Int)
    (r : Nat) (d : Int) :
    (¬ d < now →
      changeAssignment now b (some r) d =
        ({ b with heap := setDueDate b.heap r d }, Except.ok ()) ∧
      lookupHeap (changeAssignment now b (some r) d).1.heap r =
        (lookupHeap b.heap r).map (fun a => ⟨a.id, a.name, d⟩) ∧
      (changeAssignment now b (some r) d).1.classes = b.classes) ∧
    ((changeAssignment now b (some r) d).2 = Except.ok () ↔ ¬ d < now) ∧
    changeAssignment now b none d = (b, Except.error "Invalid assignment.") := by
  by_cases hd : d < now
  · refine ⟨fun h => absurd hd h, ⟨fun h => ?_, fun h => absurd hd h⟩, rfl⟩
    simp [changeAssignment, hd] at h
  · have heq : changeAssignment now b (some r) d =
        ({ b with heap := setDueDate b.heap r d }, Except.ok ()) := by
      simp [changeAssignment, hd]
    refine ⟨fun _ => ⟨heq, ?_, by rw [heq]⟩, ⟨fun _ => hd, fun _ => by rw [heq]⟩, rfl⟩
    rw [heq]
    exact lookupHeap_setDueDate b.heap r d

/-- C9 witness: assignment 7 sits in the heap but in no class's
collection; changeAssignment still succeeds and rewrites its due
date. -/
theorem c9_witness :
    changeAssignment 50 boardLoose (some 7) 60 =
      ({ boardLoose with heap := setDueDate boardLoose.heap 7 60 }, Except.ok ()) ∧
    lookupHeap (changeAssignment 50 boardLoose (some 7) 60).1.heap 7 = some ⟨7, "X", 60⟩ ∧
    (changeAssignment 50 boardLoose (some 7) 60).1.classes = boardLoose.classes :=
  have h := (c9_changeAssignment_no_membership_check boardLoose 50 7 60).1 (by decide)
  ⟨h.1, h.2.1.trans (by decide), h.2.2⟩

/-- C10: failed store writes are atomic: whenever addAssignment throws
(unknown class, empty name or past due date — its only throws) the
board is unchanged, and whenever addSyllabus throws (empty or
all-whitespace text) the board, in particular the stored syllabus, is
unchanged. -/
theorem c10_failed_writes_atomic (now : Int) (b : BrontoBoard) (classid : Nat)
    (nm : String) (d : Int) (s e e' : String) :
    ((addAssignment now b classid nm d).2 = Except.error e →
      (addAssignment now b classid nm d).1 = b) ∧
    ((addSyllabus b s).2 = Except.error e' → (addSyllabus b s).1 = b) := by
  constructor
  · intro h
    unfold addAssignment at h ⊢
    cases hl : lookupClass b classid with
    | none => simp [hl]
    | some c =>
      simp only [hl] at h ⊢
      by_cases h1 : jsTrim nm = "" <;> by_cases h2 : d < now <;> simp [h1, h2] at h ⊢
  · intro h
    unfold addSyllabus at h ⊢
    by_cases h1 : jsTrim s = "" <;> simp [h1] at h ⊢

/-- C10 witness: an empty-name addAssignment and a whitespace-only
addSyllabus both throw and leave the sample board unchanged. -/
theorem c10_failed_writes_atomic_witness :
    (addAssignment 0 boardW 0 "" 5).1 = boardW ∧ (addSyllabus boardW "   ").1 = boardW :=
  ⟨(c10_failed_writes_atomic 0 boardW 0 "" 5 "   " "workName cannot be empty." "x").1 (by decide),
    (c10_failed_writes_atomic 0 boardW 0 "" 5 "   " "x" "Syllabus cannot be empty.").2 (by decide)⟩

/-! ### Heap and class-record lemmas -/

theorem lookupA_mem {α : Type} {l : List (Nat × α)} {k : Nat} {v : α}
    (h : lookupA k l = some v) : (k, v) ∈ l := by
  induction l with
  | nil => simp [lookupA] at h
  | cons p rest ih =>
    obtain ⟨k', v'⟩ := p
    by_cases hp : k' = k
    · simp only [lookupA, hp, if_pos rfl] at h
      injection h with h
      exact List.mem_cons.mpr (Or.inl (by rw [hp, h]))
    · simp only [lookupA, if_neg hp] at h
      exact List.mem_cons_of_mem _ (ih h)

theorem lookupA_append_ne {α : Type} {l : List (Nat × α)} {k r : Nat} {w : α} (h : k ≠ r) :
    lookupA r (l ++ [(k, w)]) = lookupA r l := by
  induction l with
  | nil => simp [lookupA, h]
  | cons p rest ih =>
    by_cases hp : p.1 = r
    · simp [lookupA, hp]
    · simp [lookupA, hp, ih]

theorem lookupA_append_self {α : Type} {l : List (Nat × α)} {r : Nat} {w : α}
    (h : ∀ p ∈ l, p.1 ≠ r) :
    lookupA r (l ++ [(r, w)]) = some w := by
  induction l with
  | nil => simp [lookupA]
  | cons p rest ih =>
    have hp := h p (List.mem_cons_self p rest)
    simpa [lookupA, hp] using ih (fun q hq => h q (List.mem_cons_of_mem _ hq))

theorem lookupA_updateClass (cls : List (Nat × ClassObj)) (k : Nat) (f : ClassObj → ClassObj) :
    lookupA k (updateClass cls k f) = (lookupA k cls).map f := by
  induction cls with
  | nil => rfl
  | cons p rest ih =>
    by_cases hp : p.1 = k
    · simp [updateClass, lookupA, hp]
    · simpa [updateClass, lookupA, hp] using ih

theorem filterMap_congr_mem {α β : Type} {l : List α} {f g : α → Option β}
    (h : ∀ a ∈ l, f a = g a) : l.filterMap f = l.filterMap g := by
  induction l with
  | nil => rfl
  | cons a rest ih =>
    have ha := h a (List.mem_cons_self a rest)
    have hr := ih (fun x hx => h x (List.mem_cons_of_mem _ hx))
    simp [List.filterMap_cons, ha, hr]

/-- The predicate `wfb` unpacked into propositions. -/
theorem wfb_iff (b : BrontoBoard) :
    b.wfb = true ↔ (∀ p ∈ b.heap, p.1 < b.nextId) ∧
      ∀ p ∈ b.classes, ∀ r ∈ p.2.assignments, r < b.nextId := by
  simp [BrontoBoard.wfb, List.all_eq_true]

/-- A successful `addAssignment` with its preconditions spelled out. -/
theorem addAssignment_ok_spec (now : Int) (b : BrontoBoard) (classid : Nat) (nm : String)
    (d : Int) (c : ClassObj)
    (hc : lookupClass b classid = some c) (hnm : jsTrim nm ≠ "") (hd : ¬ d < now) :
    addAssignment now b classid nm d =
      ({ b with
          heap := b.heap ++ [(b.nextId, ⟨b.nextId, nm, d⟩)],
          classes := updateClass b.classes classid
            (fun c => { c with assignments := c.assignments ++ [b.nextId] }),
          nextId := b.nextId + 1 },
        Except.ok ⟨b.nextId, nm, d⟩) := by
  simp [addAssignment, hc, hnm, hd]

/-- A throwing `addAssignment` leaves the board untouched (the throws
all precede the pushes in the source). -/
theorem addAssignment_error_unchanged {now : Int} {b b' : BrontoBoard} {classid : Nat}
    {nm : String} {d : Int} {e : String}
    (h : addAssignment now b classid nm d = (b', Except.error e)) : b' = b := by
  unfold addAssignment at h
  cases hc : lookupClass b classid with
  | none => rw [hc] at h; exact (Prod.mk.injEq .. ▸ h).1.symm ▸ rfl
  | some c =>
    rw [hc] at h
    by_cases h1 : jsTrim nm = "" <;> by_cases h2 : d < now <;> simp [h1, h2] at h
    · exact h.1.symm
    · exact h.1.symm
    · exact h.1.symm

/-- A successful `addAssignment` happened under its preconditions. -/
theorem addAssignment_ok_cases {now : Int} {b b' : BrontoBoard} {classid : Nat}
    {nm : String} {d : Int} {w : Assignment}
    (h : addAssignment now b classid nm d = (b', Except.ok w)) :
    ∃ c, lookupClass b classid = some c ∧ jsTrim nm ≠ "" ∧ ¬ d < now := by
  unfold addAssignment at h
  cases hc : lookupClass b classid with
  | none => rw [hc] at h; simp at h
  | some c =>
    rw [hc] at h
    by_cases h1 : jsTrim nm = "" <;> by_cases h2 : d < now <;> simp [h1, h2] at h
    exact ⟨c, rfl, h1, h2⟩

/-- Effects of a successful `addAssignment` on a well-formed board: the
returned object is the fresh one, well-formedness is preserved, and the
class's dereferenced collection (hence its name list) grows by exactly
the new record. -/
theorem addAssignment_ok_effects {now : Int} {b b' : BrontoBoard} {classid : Nat}
    {nm : String} {d : Int} {w : Assignment}
    (hwf : b.wfb = true)
    (h : addAssignment now b classid nm d = (b', Except.ok w)) :
    w = ⟨b.nextId, nm, d⟩ ∧ b'.wfb = true ∧
    derefAssignments b' classid = derefAssignments b classid ++ [⟨b.nextId, nm, d⟩] ∧
    classNames b' classid = classNames b classid ++ [nm] := by
  obtain ⟨c, hc, hnm, hd⟩ := addAssignment_ok_cases h
  rw [addAssignment_ok_spec now b classid nm d c hc hnm hd] at h
  injection h with hb' hw
  injection hw with hw
  obtain ⟨hheap, hclasses⟩ := wfb_iff b |>.mp hwf
  have hfreshheap : ∀ p ∈ b.heap, p.1 ≠ b.nextId := fun p hp => Nat.ne_of_lt (hheap p hp)
  have hrefs : ∀ r ∈ c.assignments, r < b.nextId :=
    hclasses (classid, c) (lookupA_mem hc)
  have hc' : lookupA classid b.classes = some c := hc
  subst hb'
  have hwf' : BrontoBoard.wfb
      { b with
        heap := b.heap ++ [(b.nextId, ⟨b.nextId, nm, d⟩)],
        classes := updateClass b.classes classid
          (fun c => { c with assignments := c.assignments ++ [b.nextId] }),
        nextId := b.nextId + 1 } = true := by
    rw [wfb_iff]
    constructor
    · intro p hp
      rcases List.mem_append.mp hp with hp | hp
      · exact Nat.lt_succ_of_lt (hheap p hp)
      · rw [List.mem_singleton] at hp
        subst hp
        exact Nat.lt_succ_self _
    · intro p hp r hr
      simp only [updateClass, List.mem_map] at hp
      obtain ⟨q, hq, hpq⟩ := hp
      by_cases hqc : q.1 = classid
      · rw [if_pos hqc] at hpq
        subst hpq
        simp only at hr
        rcases List.mem_append.mp hr with hr | hr
        · exact Nat.lt_succ_of_lt (hclasses q hq r hr)
        · rw [List.mem_singleton] at hr
          subst hr
          exact Nat.lt_succ_self _
      · rw [if_neg hqc] at hpq
        subst hpq
        exact Nat.lt_succ_of_lt (hclasses q hq r hr)
  have hlook : lookupA classid (updateClass b.classes classid
      (fun c => { c with assignments := c.assignments ++ [b.nextId] })) =
      some { c with assignments := c.assignments ++ [b.nextId] } := by
    rw [lookupA_updateClass, hc']
    rfl
  have hder : derefAssignments
      { b with
        heap := b.heap ++ [(b.nextId, ⟨b.nextId, nm, d⟩)],
        classes := updateClass b.classes classid
          (fun c => { c with assignments := c.assignments ++ [b.nextId] }),
        nextId := b.nextId + 1 } classid =
      derefAssignments b classid ++ [(⟨b.nextId, nm, d⟩ : Assignment)] := by
    have hlook2 : lookupClass
        { b with
          heap := b.heap ++ [(b.nextId, ⟨b.nextId, nm, d⟩)],
          classes := updateClass b.classes classid
            (fun c => { c with assignments := c.assignments ++ [b.nextId] }),
          nextId := b.nextId + 1 } classid =
        some { c with assignments := c.assignments ++ [b.nextId] } := hlook
    simp only [derefAssignments, hlook2, hc]
    rw [List.filterMap_append]
    congr 1
    · exact filterMap_congr_mem (fun r hr =>
        lookupA_append_ne (Nat.ne_of_lt (hrefs r hr)).symm)
    · simp only [List.filterMap_cons, List.filterMap_nil]
      rw [show lookupHeap (b.heap ++ [(b.nextId, (⟨b.nextId, nm, d⟩ : Assignment))]) b.nextId =
          some ⟨b.nextId, nm, d⟩ from lookupA_append_self hfreshheap]
  refine ⟨hw.symm, hwf', hder, ?_⟩
  show (derefAssignments _ classid).map _ = (derefAssignments b classid).map _ ++ _
  rw [hder, List.map_append]
  rfl

/-- A name present in a class's collection implies the class exists. -/
theorem lookupClass_of_name_mem {b : BrontoBoard} {classid : Nat} {nm : String}
    (h : nm ∈ classNames b classid) : ∃ c, lookupClass b classid = some c := by
  cases hc : lookupClass b classid with
  | none => simp [classNames, derefAssignments, hc] at h
  | some c => exact ⟨c, rfl⟩

/-- The commit loop processes an appended list sequentially: after a
clean run over the prefix, it continues from the reached board. -/
theorem commitLoop_append_ok (now : Instant) (classid : Nat) (l₁ l₂ : List (String × Int)) :
    ∀ b b₁ : BrontoBoard, commitLoop now b classid l₁ = (b₁, Except.ok ()) →
      commitLoop now b classid (l₁ ++ l₂) = commitLoop now b₁ classid l₂ := by
  induction l₁ with
  | nil =>
    intro b b₁ h
    simp only [commitLoop] at h
    injection h with h1 _
    rw [List.nil_append, h1]
  | cons x rest ih =>
    intro b b₁ h
    obtain ⟨nm, due⟩ := x
    simp only [commitLoop, List.cons_append] at h ⊢
    cases hl : lookupClass b classid with
    | none => simp only [hl] at h; simp at h
    | some c =>
      simp only [hl] at h ⊢
      by_cases hdup : nm ∈ classNames b classid
      · rw [if_pos hdup] at h; simp at h
      · rw [if_neg hdup] at h ⊢
        rcases hadd : addAssignment now.toMs b classid nm due with ⟨b', r⟩
        rw [hadd] at h
        cases r with
        | error e => simp at h
        | ok w => exact ih b' b₁ h

/-- Names already in the class persist through the commit loop,
whatever its outcome. -/
theorem commitLoop_names_mono (now : Instant) (classid : Nat) (nm' : String)
    (l : List (String × Int)) :
    ∀ b : BrontoBoard, b.wfb = true → nm' ∈ classNames b classid →
      nm' ∈ classNames (commitLoop now b classid l).1 classid := by
  induction l with
  | nil => intro b _ h; simpa [commitLoop] using h
  | cons x rest ih =>
    intro b hwf h
    obtain ⟨nm, due⟩ := x
    simp only [commitLoop]
    cases hl : lookupClass b classid with
    | none => simpa using h
    | some c =>
      simp only
      by_cases hdup : nm ∈ classNames b classid
      · rw [if_pos hdup]
        exact h
      · rw [if_neg hdup]
        rcases hadd : addAssignment now.toMs b classid nm due with ⟨b', r⟩
        cases r with
        | error e =>
          have : b' = b := addAssignment_error_unchanged hadd
          subst this
          exact h
        | ok w =>
          obtain ⟨-, hwf', -, hnames⟩ := addAssignment_ok_effects hwf hadd
          exact ih b' hwf' (by rw [hnames]; exact List.mem_append_left _ h)

/-- After a clean commit run, every committed candidate's name is
present in the class. -/
theorem commitLoop_ok_names (now : Instant) (classid : Nat) (pre : List (String × Int)) :
    ∀ b b₁ : BrontoBoard, b.wfb = true →
      commitLoop now b classid pre = (b₁, Except.ok ()) →
      ∀ y ∈ pre, y.1 ∈ classNames b₁ classid := by
  induction pre with
  | nil => intro b b₁ _ _ y hy; simp at hy
  | cons x rest ih =>
    intro b b₁ hwf h y hy
    obtain ⟨nm, due⟩ := x
    simp only [commitLoop] at h
    cases hl : lookupClass b classid with
    | none => simp only [hl] at h; simp at h
    | some c =>
      simp only [hl] at h
      by_cases hdup : nm ∈ classNames b classid
      · rw [if_pos hdup] at h; simp at h
      · rw [if_neg hdup] at h
        rcases hadd : addAssignment now.toMs b classid nm due with ⟨b', r⟩
        rw [hadd] at h
        cases r with
        | error e => simp at h
        | ok w =>
          obtain ⟨-, hwf', -, hnames⟩ := addAssignment_ok_effects hwf hadd
          rcases List.mem_cons.mp hy with hy' | hy'
          · subst hy'
            have hmem : nm ∈ classNames b' classid := by
              rw [hnames]
              exact List.mem_append_right _ (List.mem_singleton.mpr rfl)
            have h2 : commitLoop now b' classid rest = (b₁, Except.ok ()) := h
            have := commitLoop_names_mono now classid nm rest b' hwf' hmem
            rw [h2] at this
            exact this
          · exact ih b' b₁ hwf' h y hy'

/-- The commit loop preserves within-class name uniqueness: it only
ever adds a name after checking it is absent. -/
theorem commitLoop_preserves_nodup (now : Instant) (classid : Nat)
    (l : List (String × Int)) :
    ∀ b : BrontoBoard, b.wfb = true → (classNames b classid).Nodup →
      (classNames (commitLoop now b classid l).1 classid).Nodup := by
  induction l with
  | nil => intro b _ h; simpa [commitLoop] using h
  | cons x rest ih =>
    intro b hwf h
    obtain ⟨nm, due⟩ := x
    simp only [commitLoop]
    cases hl : lookupClass b classid with
    | none => simpa using h
    | some c =>
      simp only
      by_cases hdup : nm ∈ classNames b classid
      · rw [if_pos hdup]
        exact h
      · rw [if_neg hdup]
        rcases hadd : addAssignment now.toMs b classid nm due with ⟨b', r⟩
        cases r with
        | error e =>
          have : b' = b := addAssignment_error_unchanged hadd
          subst this
          exact h
        | ok w =>
          obtain ⟨-, hwf', -, hnames⟩ := addAssignment_ok_effects hwf hadd
          refine ih b' hwf' ?_
          rw [hnames]
          refine List.Nodup.append h (List.nodup_singleton nm) ?_
          intro a ha hna
          rw [List.mem_singleton] at hna
          subst hna
          exact hdup ha

/-- A found class's collection is what getAllAssignments returns. -/
theorem getAllAssignments_eq_deref {b : BrontoBoard} {classid : Nat} {c : ClassObj}
    (hc : lookupClass b classid = some c) :
    getAllAssignments b classid = Except.ok (derefAssignments b classid) := by
  simp [getAllAssignments, derefAssignments, hc]

/-- C5: the extraction commit is per-item sequential and non-atomic:
when a clean run over the prefix reaches a candidate whose name is
already in the class's collection, the loop stops there with the
duplicate-assignment error, the duplicate and everything after it are
not added, and every prefix candidate remains committed in the reached
board. -/
theorem c5_commit_sequential_nonatomic (now : Instant) (b b₁ : BrontoBoard) (classid : Nat)
    (pre post : List (String × Int)) (x : String × Int)
    (hwf : b.wfb = true)
    (hpre : commitLoop now b classid pre = (b₁, Except.ok ()))
    (hdup : x.1 ∈ classNames b₁ classid) :
    commitLoop now b classid (pre ++ x :: post) =
      (b₁, Except.error ("Skipping duplicate assignment: " ++ x.1)) ∧
    ∀ y ∈ pre, y.1 ∈ classNames b₁ classid := by
  obtain ⟨nm, due⟩ := x
  obtain ⟨c, hc⟩ := lookupClass_of_name_mem hdup
  constructor
  · rw [commitLoop_append_ok now classid pre ((nm, due) :: post) b b₁ hpre]
    simp only [commitLoop, hc]
    rw [if_pos hdup]
  · exact commitLoop_ok_names now classid pre b b₁ hwf hpre

/-- The board reached after committing one "A" candidate to the sample
board. -/
def boardAfterA : BrontoBoard :=
  ⟨[(0, ⟨0, "Physics 101", "Hello", [1]⟩)],
    [(1, ⟨1, "A", Instant.toMs ⟨2025, 9, 4, 0⟩⟩)], "", 2⟩

/-- C5 witness: committing A, A, B stops at the second A with the
duplicate error; the first A remains committed, B is never added. -/
theorem c5_commit_sequential_nonatomic_witness :
    commitLoop ⟨2025, 1, 15, 0⟩ boardW 0
      ([("A", Instant.toMs ⟨2025, 9, 4, 0⟩)] ++ ("A", Instant.toMs ⟨2025, 9, 4, 0⟩) ::
        [("B", Instant.toMs ⟨2025, 9, 4, 0⟩)]) =
      (boardAfterA, Except.error ("Skipping duplicate assignment: " ++
        ("A", Instant.toMs ⟨2025, 9, 4, 0⟩).1)) ∧
    ∀ y ∈ [("A", Instant.toMs ⟨2025, 9, 4, 0⟩)], y.1 ∈ classNames boardAfterA 0 :=
  c5_commit_sequential_nonatomic ⟨2025, 1, 15, 0⟩ boardW boardAfterA 0
    [("A", Instant.toMs ⟨2025, 9, 4, 0⟩)] [("B", Instant.toMs ⟨2025, 9, 4, 0⟩)]
    ("A", Instant.toMs ⟨2025, 9, 4, 0⟩) (by decide) (by decide) (by decide)

/-- C3 (amended): only the extraction commit enforces the
no-duplicate-name invariant: parseAndApplyAssignments checks each
candidate's name against the class's current collection before adding
it (erroring on a hit), so it preserves within-class name uniqueness;
manual addAssignment performs no duplicate check (see the
counterexample). -/
theorem c3_amended_commit_preserves_uniqueness (now : Instant) (response : JsonVal)
    (classid : Nat) (b : BrontoBoard)
    (hwf : b.wfb = true) (hnd : (classNames b classid).Nodup) :
    (classNames (parseAndApplyAssignments now response classid b).1 classid).Nodup := by
  unfold parseAndApplyAssignments
  split
  · split
    · exact hnd
    · exact commitLoop_preserves_nodup now classid _ b hwf hnd
  · exact hnd

/-- C3 witness: the two-candidate scenario batch commits cleanly and
the class's name list stays duplicate-free. -/
theorem c3_amended_witness :
    (classNames (parseAndApplyAssignments ⟨2025, 1, 15, 0⟩
      (JsonVal.obj [("assignments",
        JsonVal.arr [mkCandidate "Pset#0" 9 4, mkCandidate "Pset#1" 10 5])]) 0 boardW).1
      0).Nodup :=
  c3_amended_commit_preserves_uniqueness ⟨2025, 1, 15, 0⟩
    (JsonVal.obj [("assignments",
      JsonVal.arr [mkCandidate "Pset#0" 9 4, mkCandidate "Pset#1" 10 5])]) 0 boardW
    (by decide) (by decide)

/-- C3 counterexample: manual addAssignment refuses nothing: adding
"HW" twice to the same class succeeds both times and leaves two
assignments with the same name, so not every adding operation enforces
the invariant. -/
theorem c3_counterexample_manual_duplicates :
    (addAssignment 0 boardW 0 "HW" 5).2 = Except.ok ⟨1, "HW", 5⟩ ∧
    (addAssignment 0 (addAssignment 0 boardW 0 "HW" 5).1 0 "HW" 5).2 =
      Except.ok ⟨2, "HW", 5⟩ ∧
    classNames (addAssignment 0 (addAssignment 0 boardW 0 "HW" 5).1 0 "HW" 5).1 0 =
      ["HW", "HW"] ∧
    ¬ (classNames (addAssignment 0 (addAssignment 0 boardW 0 "HW" 5).1 0 "HW" 5).1 0).Nodup :=
  ⟨by decide, by decide, by decide, by decide⟩

/-- C8 (amended): round-trip: on a well-formed board, for a registered
class, a valid name and a non-past due date, provided the class does
not already hold an entry with that name and date, addAssignment
succeeds and getAllAssignments then lists exactly one entry with that
name and due date. -/
theorem c8_roundtrip_amended (now : Int) (b : BrontoBoard) (classid : Nat) (c : ClassObj)
    (nm : String) (d : Int)
    (hwf : b.wfb = true) (hc : lookupClass b classid = some c)
    (hnm : jsTrim nm ≠ "") (hd : ¬ d < now)
    (hnone : ((derefAssignments b classid).filter
      (fun a => a.name == nm && a.dueDate == d)).length = 0) :
    (addAssignment now b classid nm d).2 = Except.ok ⟨b.nextId, nm, d⟩ ∧
    getAllAssignments (addAssignment now b classid nm d).1 classid =
      Except.ok (derefAssignments (addAssignment now b classid nm d).1 classid) ∧
    ((derefAssignments (addAssignment now b classid nm d).1 classid).filter
      (fun a => a.name == nm && a.dueDate == d)).length = 1 := by
  have hc' : lookupA classid b.classes = some c := hc
  have hspec := addAssignment_ok_spec now b classid nm d c hc hnm hd
  have hder : derefAssignments (addAssignment now b classid nm d).1 classid =
      derefAssignments b classid ++ [⟨b.nextId, nm, d⟩] := by
    rw [hspec]
    exact (addAssignment_ok_effects hwf hspec).2.2.1
  have hc₂ : lookupClass (addAssignment now b classid nm d).1 classid =
      some { c with assignments := c.assignments ++ [b.nextId] } := by
    rw [hspec]
    show lookupA classid (updateClass b.classes classid
      (fun c => { c with assignments := c.assignments ++ [b.nextId] })) = _
    rw [lookupA_updateClass, hc']
    rfl
  refine ⟨by rw [hspec], getAllAssignments_eq_deref hc₂, ?_⟩
  rw [hder, List.filter_append, List.length_append, hnone]
  simp

/-- C8 witness: adding "HW" to the fresh sample class and listing it
yields exactly one matching entry. -/
theorem c8_roundtrip_amended_witness :
    (addAssignment 0 boardW 0 "HW" 5).2 = Except.ok ⟨1, "HW", 5⟩ ∧
    getAllAssignments (addAssignment 0 boardW 0 "HW" 5).1 0 =
      Except.ok (derefAssignments (addAssignment 0 boardW 0 "HW" 5).1 0) ∧
    ((derefAssignments (addAssignment 0 boardW 0 "HW" 5).1 0).filter
      (fun a => a.name == "HW" && a.dueDate == 5)).length = 1 :=
  c8_roundtrip_amended 0 boardW 0 ⟨0, "Physics 101", "Hello", []⟩ "HW" 5
    (by decide) rfl (by decide) (by decide) (by decide)

/-- A board whose class 0 already holds an assignment named "HW" due
at 5. -/
def boardDup : BrontoBoard :=
  ⟨[(0, ⟨0, "Physics 101", "Hello", [1]⟩)], [(1, ⟨1, "HW", 5⟩)], "", 2⟩

/-- C8 counterexample: with the same valid pair on a class that already
holds an identical entry, addAssignment still succeeds (no duplicate
check) and the listing then holds two matching entries, not exactly
one — so the claim's universal form over every registered class
fails. -/
theorem c8_counterexample_two_entries :
    (addAssignment 0 boardDup 0 "HW" 5).2 = Except.ok ⟨2, "HW", 5⟩ ∧
    getAllAssignments (addAssignment 0 boardDup 0 "HW" 5).1 0 =
      Except.ok [⟨1, "HW", 5⟩, ⟨2, "HW", 5⟩] ∧
    ((derefAssignments (addAssignment 0 boardDup 0 "HW" 5).1 0).filter
      (fun a => a.name == "HW" && a.dueDate == 5)).length = 2 :=
  ⟨by decide, by decide, by decide⟩

/-- Coercing an integer-valued JSON number with `Number` is that integer. -/
theorem numAsInteger_intCast (n : Int) :
    numAsInteger (some (JsonVal.num (n : ℚ))) = some n := by
  simp [numAsInteger, jsToNum]

/-- C4 counterexample: with the reference instant at 10:00 on
2025-11-04, a due date on that same calendar day (midnight) is rejected
as past by addAssignment, by the validator's past-date check, and by
changeAssignment — so the comparisons are not day-granular. -/
theorem c4_counterexample_same_day_rejected :
    (addAssignment (Instant.toMs ⟨2025, 11, 4, 36000000⟩) boardW 0 "HW"
        (Instant.toMs ⟨2025, 11, 4, 0⟩)).2 =
      Except.error "dueDate must be in the future." ∧
    checkCandidate ⟨2025, 11, 4, 36000000⟩ (mkCandidate "HW" 11 4) =
      Except.error "Assignment \"HW\" has a past due date." ∧
    (changeAssignment (Instant.toMs ⟨2025, 11, 4, 36000000⟩) boardW (some 0)
        (Instant.toMs ⟨2025, 11, 4, 0⟩)).2 =
      Except.error "New due date must be in the future." :=
  ⟨by decide, by decide, by decide⟩

/-- C4 (amended): the comparisons with the current instant in
addAssignment, changeAssignment and the validator's past-date check are
strict full-instant comparisons, not day-granular ones: a due date at
or after the reference instant is accepted and one strictly before it —
including midnight of the current day whenever the reference instant is
later that day — is rejected as past.  (A candidate's date is midnight
of its (current-year, month, day), so a previous-day candidate is
always strictly before the instant and rejected.) -/
theorem c4_amended_strict_instant_comparisons (now : Instant) (b : BrontoBoard)
    (classid : Nat) (c : ClassObj) (nm name : String) (d : Int) (r : Nat)
    (month day : Int)
    (hc : lookupClass b classid = some c) (hnm : jsTrim nm ≠ "")
    (hname : jsTrim name ≠ "")
    (hvalid : jsTimeValid (jsMakeDate now.year (month - 1) day) = true) :
    ((addAssignment now.toMs b classid nm d).2 =
        Except.ok ⟨b.nextId, nm, d⟩ ↔ ¬ d < now.toMs) ∧
    ((changeAssignment now.toMs b (some r) d).2 = Except.ok () ↔ ¬ d < now.toMs) ∧
    (checkCandidate now (mkCandidate name month day) =
        Except.error ("Assignment \"" ++ name ++ "\" has a past due date.") ↔
      jsMakeDate now.year (month - 1) day < now.toMs) := by
  have hobj : isObjectNonNull (mkCandidate name month day) = true := rfl
  have hgetn : getField (mkCandidate name month day) "name" =
      some (JsonVal.str name) := rfl
  have hgetm : getField (mkCandidate name month day) "monthDue" =
      some (JsonVal.num (month : ℚ)) := rfl
  have hgetd : getField (mkCandidate name month day) "dayDue" =
      some (JsonVal.num (day : ℚ)) := rfl
  refine ⟨?_, ?_, ?_⟩
  · by_cases hd : d < now.toMs
    · simp [addAssignment, hc, hnm, hd]
    · simp [addAssignment, hc, hnm, hd]
  · by_cases hd : d < now.toMs
    · simp [changeAssignment, hd]
    · simp [changeAssignment, hd]
  · by_cases hpast : jsMakeDate now.year (month - 1) day < now.toMs
    · have heval : checkCandidate now (mkCandidate name month day) =
          Except.error ("Assignment \"" ++ name ++ "\" has a past due date.") := by
        simp [checkCandidate, hobj, hgetn, hgetm, hgetd, numAsInteger_intCast,
          hname, hvalid, hpast]
      simp [heval, hpast]
    · have heval : checkCandidate now (mkCandidate name month day) =
          Except.ok (name, jsMakeDate now.year (month - 1) day) := by
        simp [checkCandidate, hobj, hgetn, hgetm, hgetd, numAsInteger_intCast,
          hname, hvalid, hpast]
      simp [heval, hpast]

/-- C4 witness: the amended statement instantiated on the sample board
at the 2025-01-15 midnight instant with candidate fields (9, 4). -/
theorem c4_amended_strict_instant_comparisons_witness :
    ((addAssignment (Instant.toMs ⟨2025, 1, 15, 0⟩) boardW 0 "HW" 42).2 =
        Except.ok ⟨1, "HW", 42⟩ ↔ ¬ (42 : Int) < Instant.toMs ⟨2025, 1, 15, 0⟩) ∧
    ((changeAssignment (Instant.toMs ⟨2025, 1, 15, 0⟩) boardW (some 0) 42).2 =
        Except.ok () ↔ ¬ (42 : Int) < Instant.toMs ⟨2025, 1, 15, 0⟩) ∧
    (checkCandidate ⟨2025, 1, 15, 0⟩ (mkCandidate "A" 9 4) =
        Except.error ("Assignment \"" ++ "A" ++ "\" has a past due date.") ↔
      jsMakeDate (2025 : Int) (9 - 1) 4 < Instant.toMs ⟨2025, 1, 15, 0⟩) :=
  c4_amended_strict_instant_comparisons ⟨2025, 1, 15, 0⟩ boardW 0
    ⟨0, "Physics 101", "Hello", []⟩ "HW" "A" 42 0 9 4 rfl (by decide) (by decide) (by decide)
